import Mathlib

/-!
Verification of the hybrid-retrieval core of the reg-rag repository.

The Python sources embedded here are:
* `src/services/agent_service.py` — `_sanitize_fts_query`, the
  `HybridRetriever` class (`_search_sqlite`, `_search_qdrant`,
  `_reciprocal_rank_fusion`, `retrieve`) and `create_agent`
  (iteration budget `max_iterations=5`);
* `src/api/main.py` — the `find_justifying_paragraph` request handler
  (markdown-fence stripping, error-payload routing, Pydantic validation).

Modelling conventions: Python ints are `Int`/`Nat`; float scores are
modelled by exact rationals `ℚ` (the reciprocal-rank arithmetic of the
claims is rational); Python strings handled character-by-character are
`List Char`; a fallible backend call is an `Except` value, and the
`try/except` absorption in the source becomes a total function on it;
a Python dict keyed by int is an insertion-ordered association list.
`Char.isWhitespace`/`Char.isAlphanum` model the corresponding Python
character classes on the code points the claims exercise (ASCII).
-/

/-- A transient per-source search hit, as produced by `_search_sqlite` /
`_search_qdrant`: a dict `{"id": ..., "score": ...}`. The raw score is
source-specific. -/
structure SearchHit where
  id : Int
  score : ℚ
deriving DecidableEq

/-- A full paragraph record as hydrated from the `documents` table:
`SELECT id, doc_id, chapter_id, paragraph_id, text`. -/
structure Record where
  id : Int
  doc_id : Int
  chapter_id : Int
  paragraph_id : Int
  text : String
deriving DecidableEq

/-- Python `\w` character class (ASCII fragment): alphanumeric or
underscore. Used by `_sanitize_fts_query`'s regex `[^\w\s]`. -/
def isWordChar (c : Char) : Bool := c.isAlphanum || c = '_'

/-- `_sanitize_fts_query(query)`: `re.sub(r'[^\w\s]', ' ', query)` —
every character that is neither a word character nor whitespace is
replaced by a single space. -/
def sanitizeFtsQuery (q : List Char) : List Char :=
  q.map (fun c => if isWordChar c || c.isWhitespace then c else ' ')

/-- Sanitization as the spec words it: replace every character that is
not alphanumeric or whitespace (underscore included) with whitespace.
Stated only to be compared with `sanitizeFtsQuery`. -/
def specSanitize (q : List Char) : List Char :=
  q.map (fun c => if c.isAlphanum || c.isWhitespace then c else ' ')

/-- One reciprocal-rank contribution: `1 / (k_rrf + rank + 1)` from
`_reciprocal_rank_fusion`. -/
def rrfTerm (kRRF r : ℕ) : ℚ := 1 / ((kRRF + r + 1 : ℕ) : ℚ)

/-- The dict update `fused_scores[doc_id] += v` (with prior
`fused_scores[doc_id] = 0` when absent) on an insertion-ordered
association list: update the value in place if the key is present,
otherwise append the new key at the end. -/
def addScore : List (Int × ℚ) → Int → ℚ → List (Int × ℚ)
  | [], i, v => [(i, v)]
  | (j, w) :: rest, i, v =>
    if j = i then (j, w + v) :: rest else (j, w) :: addScore rest i v

/-- The inner loop `for rank, doc in enumerate(results)` of
`_reciprocal_rank_fusion`, with `r` the rank of the head hit. -/
def fuseHits (kRRF : ℕ) : List (Int × ℚ) → List SearchHit → ℕ → List (Int × ℚ)
  | acc, [], _ => acc
  | acc, h :: hs, r => fuseHits kRRF (addScore acc h.id (rrfTerm kRRF r)) hs (r + 1)

/-- The outer loop `for results in results_lists` of
`_reciprocal_rank_fusion`: the state of `fused_scores` after all lists
are folded in, in dict insertion order. -/
def rrfAccum (kRRF : ℕ) (lists : List (List SearchHit)) : List (Int × ℚ) :=
  lists.foldl (fun acc hits => fuseHits kRRF acc hits 0) []

/-- Stable insertion (descending by score) used to model Python
`sorted(..., key=lambda item: item[1], reverse=True)`: a later element
is placed before the first earlier element whose score is `≤` its own,
so elements with equal scores keep their original relative order. -/
def insertDesc (p : Int × ℚ) : List (Int × ℚ) → List (Int × ℚ)
  | [] => [p]
  | q :: rest => if q.2 ≤ p.2 then p :: q :: rest else q :: insertDesc p rest

/-- Stable sort, descending by score. Python's `sorted` with
`key=lambda item: item[1], reverse=True` is exactly the stable
descending sort by score, and the stable descending sort of a list is
unique (sorted + per-score-class order preserved + permutation), so
this structural insertion sort is a faithful model of it. -/
def sortDesc : List (Int × ℚ) → List (Int × ℚ)
  | [] => []
  | p :: rest => insertDesc p (sortDesc rest)

/-- `_reciprocal_rank_fusion(results_lists, k_rrf)`: accumulate the
reciprocal-rank contributions per id, then sort by fused score
descending (stable w.r.t. dict insertion order). An output pair is
`(id, fused_score)`, i.e. the dict `{"id": ..., "score": ...}`. -/
def rrf (kRRF : ℕ) (lists : List (List SearchHit)) : List (Int × ℚ) :=
  sortDesc (rrfAccum kRRF lists)

/-- The zero-based rank of id `i` in a source hit list: position of its
first occurrence, if any. -/
def rankOf (i : Int) : List SearchHit → Option ℕ
  | [] => none
  | h :: hs => if h.id = i then some 0 else (rankOf i hs).map (· + 1)

/-- The contribution of one source list to id `i`, as the spec words
it: `1 / (K + r + 1)` where `r` is the id's 0-based rank in that list,
and `0` when the list does not contain the id. -/
def specRankTerm (kRRF : ℕ) (hits : List SearchHit) (i : Int) : ℚ :=
  match rankOf i hits with
  | some r => rrfTerm kRRF r
  | none => 0

/-- The fused score the spec prescribes for id `i`: the sum of the
per-list rank contributions over all source lists. Stated only to be
compared with what `rrf` computes. -/
def specFusedScore (kRRF : ℕ) (lists : List (List SearchHit)) (i : Int) : ℚ :=
  (lists.map (fun hits => specRankTerm kRRF hits i)).sum

/-- The ordering the spec claims for the fusion output: fused score
descending, ties broken by ascending id. Stated only to be compared
with the order `rrf` actually produces. -/
def specFusedOrder (l : List (Int × ℚ)) : Prop :=
  l.Pairwise (fun a b => b.2 < a.2 ∨ (a.2 = b.2 ∧ a.1 < b.1))

/-- Outcome of one backend search call as seen by `retrieve`:
`_search_sqlite` / `_search_qdrant` wrap the backend call in
`try/except` and return `[]` on a backend error, so a failed source
degrades to the empty hit list. -/
def searchResult (r : Except String (List SearchHit)) : List SearchHit :=
  match r with
  | .ok hits => hits
  | .error _ => []

/-- `HybridRetriever.retrieve(query, k)`, with the two backend calls
abstracted to their outcomes and the `documents` table abstracted to a
lookup function: fuse the two (possibly failed) sources with RRF at
`k_rrf = 60`, return `[]` if the fusion is empty, otherwise truncate to
the top `k` ids and hydrate them in fused order, silently dropping any
id the store has no record for (`if doc_id in results_map`). -/
def retrieve (store : Int → Option Record)
    (kwRes vecRes : Except String (List SearchHit)) (k : ℕ) : List Record :=
  let sqliteResults := searchResult kwRes
  let qdrantResults := searchResult vecRes
  let fusedResults := rrf 60 [sqliteResults, qdrantResults]
  if fusedResults = [] then []
  else ((fusedResults.take k).map Prod.fst).filterMap store

/-- Python whitespace for `str.strip()`, on the code points the claims
exercise. -/
def isWS (c : Char) : Bool := c.isWhitespace

/-- Python `s.strip()` on a character list: drop whitespace from both
ends. -/
def trimChars (s : List Char) : List Char :=
  ((s.dropWhile isWS).reverse.dropWhile isWS).reverse

/-- Python `s[: len s - n]` (drop `n` characters from the right; empty
when `n ≥ len s`), matching the right half of the slice `s[7:-4]`. -/
def dropRightN (l : List Char) (n : ℕ) : List Char :=
  l.take (l.length - n)

/-- Python substring test `pat in s`. -/
def hasSubstr (pat : List Char) : List Char → Bool
  | [] => pat.isEmpty
  | c :: rest => pat.isPrefixOf (c :: rest) || hasSubstr pat rest

/-- The opening fence marker `"```json"` tested by
`agent_output_str.strip().startswith("```json")`. -/
def fenceOpen : List Char := "```json".data

/-- The markdown-fence cleanup in `find_justifying_paragraph`:
`if agent_output_str.strip().startswith("```json"):
   agent_output_str = agent_output_str.strip()[7:-4].strip()`
(the original string is kept, unstripped, when the test fails). -/
def stripFences (s : List Char) : List Char :=
  let t := trimChars s
  if fenceOpen.isPrefixOf t then trimChars (dropRightN (t.drop 7) 4) else s

/-- A payload wrapped in a markdown code fence, the way the agent
prompt shows it: the opening marker on its own line, then the payload,
then the closing marker on its own line. -/
def wrapJsonFence (p : List Char) : List Char :=
  ("```json\n".data) ++ p ++ ("\n```".data)

/-- The substring probe `'"error":' in agent_output_str` that routes an
explicit failure payload. -/
def errorProbe : List Char := "\"error\":".data

/-- A parsed JSON leaf value: the fields the terminal payloads carry
are integers and strings. -/
inductive JVal where
  | jint (n : Int)
  | jstr (s : List Char)
deriving DecidableEq

/-- A parsed JSON object (`json.loads` result when it is a dict): field
name to value, first binding wins on lookup. A `parse` function below
returns `none` both when `json.loads` raises `JSONDecodeError` and when
the parse result is not an object — in the source both cases reach the
same internal-error handler (`JSONDecodeError` caught directly;
non-dict results raise `TypeError`/`AttributeError`, also caught). -/
abbrev JsonObj := List (List Char × JVal)

/-- Python `dict.get(key)` on a parsed object. -/
def lookupJ (key : List Char) (o : JsonObj) : Option JVal :=
  match o with
  | [] => none
  | (k, v) :: rest => if k = key then some v else lookupJ key rest

/-- The Pydantic response model `ParagraphLocation`. -/
structure ParagraphLocation where
  doc_id : Int
  chapter_id : Int
  paragraph_id : Int
deriving DecidableEq

/-- `ParagraphLocation(**result_data)`: requires the three integer
fields; any missing field raises a validation error (which the handler
surfaces as an internal error). -/
def validateLocation (o : JsonObj) : Option ParagraphLocation :=
  match lookupJ ("doc_id".data) o, lookupJ ("chapter_id".data) o,
      lookupJ ("paragraph_id".data) o with
  | some (.jint d), some (.jint c), some (.jint p) => some ⟨d, c, p⟩
  | _, _, _ => none

/-- The three outcome classes of `find_justifying_paragraph` once an
agent output string is in hand: a validated `ParagraphLocation`
response, an `HTTPException(404, detail)` carrying the failure detail,
or an `HTTPException(500, ...)` (every internal-error path). -/
inductive ApiOutcome where
  | ok (loc : ParagraphLocation)
  | notFound (detail : JVal)
  | internalError
deriving DecidableEq

/-- The terminal-payload handling of `find_justifying_paragraph`,
abstracted over the JSON parser: empty output is rejected
(`if not agent_output_str`), the markdown fence is stripped, an output
containing `'"error":'` is routed to a 404 carrying
`error_data.get("error", "Justification not found")` (or to a 500 when
it does not even parse), and any other output is parsed and validated,
reaching a 500 when parsing or `ParagraphLocation` validation fails. -/
def handleAgentOutput (parse : List Char → Option JsonObj)
    (out : List Char) : ApiOutcome :=
  if out = [] then .internalError
  else
    let t := stripFences out
    if hasSubstr errorProbe t then
      match parse t with
      | none => .internalError
      | some o => .notFound ((lookupJ ("error".data) o).getD (.jstr ("Justification not found".data)))
    else
      match parse t with
      | none => .internalError
      | some o =>
        match validateLocation o with
        | some loc => .ok loc
        | none => .internalError

/-- One turn of the reasoning engine: request the retrieval tool with a
query, or emit a terminal payload. -/
inductive AgentTurn (Q P : Type) where
  | toolCall (query : Q)
  | finalAnswer (payload : P)

/-- Outcome of the refinement loop: a terminal payload from the engine,
or a loop-level failure. -/
inductive LoopResult (P : Type) where
  | terminal (payload : P)
  | failure (reason : String)
deriving DecidableEq

/-- The iteration budget configured in `create_agent`
(`max_iterations=5`). -/
def defaultMaxIterations : ℕ := 5

/-- Modelled from the spec: the Query-Refinement Loop itself is
executed by the external `AgentExecutor` library (the repository only
configures it, with `max_iterations=5`), so its state machine is
modelled from §4.5 of the spec. On each turn the engine either emits a
terminal answer, or makes one tool call (consuming one unit of budget)
and loops with the history extended; when the budget is exhausted
without a terminal answer the loop hard-stops with
`Failure("iteration limit exceeded")`. Returns the outcome together
with the number of tool calls made. -/
def runRefinementLoop {Q O P : Type} (engine : List (Q × O) → AgentTurn Q P)
    (tool : Q → O) : ℕ → List (Q × O) → LoopResult P × ℕ
  | 0, _ => (.failure ("iteration limit exceeded"), 0)
  | n + 1, hist =>
    match engine hist with
    | .finalAnswer p => (.terminal p, 0)
    | .toolCall q =>
      let rest := runRefinementLoop engine tool n (hist ++ [(q, tool q)])
      (rest.1, rest.2 + 1)

/-- Lookup of an id's accumulated score in the `fused_scores`
association list (`fused_scores.get(i)`). -/
def scoreOf : List (Int × ℚ) → Int → Option ℚ
  | [], _ => none
  | (j, w) :: rest, i => if j = i then some w else scoreOf rest i

/-- A concrete stored paragraph record, used to instantiate the
retrieval theorems. -/
def recSeven : Record := ⟨7, 9, 5, 434408, "..."⟩

/-- A concrete record store holding exactly the record with id 7. -/
def storeSeven (i : Int) : Option Record :=
  if i = 7 then some recSeven else none

/-- The empty record store. -/
def storeEmpty (_ : Int) : Option Record := none

/-- A concrete explicit failure payload string,
`{"error": "nope"}`. -/
def sampleErrPayload : List Char := "\x7b\"error\": \"nope\"\x7d".data

/-- A concrete success-shaped payload string missing two required
fields, `{"doc_id": 3}`. -/
def sampleMissPayload : List Char := "\x7b\"doc_id\": 3\x7d".data

/-- A concrete syntactically malformed payload string. -/
def sampleBadPayload : List Char := "\x7bnot json".data

/-- A concrete JSON parser defined on the two well-formed sample
payloads, used to instantiate the handler theorems. -/
def sampleParse (s : List Char) : Option JsonObj :=
  if s = sampleErrPayload then some [("error".data, .jstr ("nope".data))]
  else if s = sampleMissPayload then some [("doc_id".data, .jint 3)]
  else none

theorem scoreOf_addScore_self (l : List (Int × ℚ)) (i : Int) (v : ℚ) :
    scoreOf (addScore l i v) i = some ((scoreOf l i).getD 0 + v) := by
  induction l with
  | nil => simp [addScore, scoreOf]
  | cons hd tl ih =>
    obtain ⟨j, w⟩ := hd
    by_cases h : j = i
    · subst h
      simp [addScore, scoreOf]
    · simp [addScore, scoreOf, h, ih]

theorem scoreOf_addScore_ne (l : List (Int × ℚ)) {i j : Int} (h : j ≠ i) (v : ℚ) :
    scoreOf (addScore l i v) j = scoreOf l j := by
  induction l with
  | nil => simp [addScore, scoreOf, Ne.symm h]
  | cons hd tl ih =>
    obtain ⟨a, w⟩ := hd
    by_cases ha : a = i
    · subst ha
      simp [addScore, scoreOf, Ne.symm h]
    · simp only [addScore, if_neg ha]
      simp [scoreOf, ih]

theorem mem_keys_addScore {l : List (Int × ℚ)} {i a : Int} {v : ℚ} :
    a ∈ (addScore l i v).map Prod.fst ↔ a ∈ l.map Prod.fst ∨ a = i := by
  induction l with
  | nil => simp [addScore]
  | cons hd tl ih =>
    obtain ⟨j, w⟩ := hd
    by_cases h : j = i
    · subst h
      simp [addScore]
      tauto
    · simp [addScore, h, ih]
      tauto

theorem nodup_keys_addScore {l : List (Int × ℚ)} (h : (l.map Prod.fst).Nodup)
    (i : Int) (v : ℚ) : ((addScore l i v).map Prod.fst).Nodup := by
  induction l with
  | nil => simp [addScore]
  | cons hd tl ih =>
    obtain ⟨j, w⟩ := hd
    simp only [List.map_cons, List.nodup_cons] at h
    by_cases hj : j = i
    · subst hj
      simpa [addScore] using h
    · simp only [addScore, if_neg hj, List.map_cons, List.nodup_cons]
      refine ⟨?_, ih h.2⟩
      intro hmem
      rcases mem_keys_addScore.mp hmem with hm | he
      · exact h.1 hm
      · exact hj he

theorem scoreOf_eq_of_mem {l : List (Int × ℚ)} {i : Int} {s : ℚ}
    (hnd : (l.map Prod.fst).Nodup) (hm : (i, s) ∈ l) : scoreOf l i = some s := by
  induction l with
  | nil => cases hm
  | cons hd tl ih =>
    obtain ⟨j, w⟩ := hd
    simp only [List.map_cons, List.nodup_cons] at hnd
    rcases List.mem_cons.mp hm with he | ht
    · cases he
      simp [scoreOf]
    · by_cases h : j = i
      · exfalso
        subst h
        exact hnd.1 (List.mem_map.mpr ⟨(j, s), ht, rfl⟩)
      · simp [scoreOf, h, ih hnd.2 ht]

theorem rankOf_eq_none {i : Int} {hs : List SearchHit}
    (h : i ∉ hs.map SearchHit.id) : rankOf i hs = none := by
  induction hs with
  | nil => rfl
  | cons a tl ih =>
    simp only [List.map_cons, List.mem_cons, not_or] at h
    have ha : a.id ≠ i := fun hh => h.1 hh.symm
    simp [rankOf, ha, ih h.2]

theorem scoreOf_fuseHits (k : ℕ) {i : Int} :
    ∀ {hits : List SearchHit}, (hits.map SearchHit.id).Nodup →
    ∀ (acc : List (Int × ℚ)) (r0 : ℕ),
      (scoreOf (fuseHits k acc hits r0) i).getD 0
        = (scoreOf acc i).getD 0
          + (match rankOf i hits with
             | some r => rrfTerm k (r0 + r)
             | none => 0) := by
  intro hits
  induction hits with
  | nil =>
    intro _ acc r0
    simp [fuseHits, rankOf]
  | cons h hs ih =>
    intro hnd acc r0
    simp only [List.map_cons, List.nodup_cons] at hnd
    by_cases hid : h.id = i
    · have hnone : rankOf i hs = none := rankOf_eq_none (hid ▸ hnd.1)
      rw [fuseHits, hid, ih hnd.2]
      rw [scoreOf_addScore_self]
      simp [hnone, rankOf, hid]
    · rw [fuseHits, ih hnd.2]
      have e2 : scoreOf (addScore acc h.id (rrfTerm k r0)) i = scoreOf acc i :=
        scoreOf_addScore_ne _ (fun hh => hid hh.symm) _
      rw [e2]
      have e3 : rankOf i (h :: hs) = (rankOf i hs).map (· + 1) := by
        simp [rankOf, hid]
      rw [e3]
      cases hr : rankOf i hs with
      | none => simp
      | some r =>
        have : r0 + 1 + r = r0 + (r + 1) := by omega
        simp [this]

theorem nodup_keys_fuseHits (k : ℕ) (hits : List SearchHit) :
    ∀ acc : List (Int × ℚ), (acc.map Prod.fst).Nodup → ∀ r0 : ℕ,
      ((fuseHits k acc hits r0).map Prod.fst).Nodup := by
  induction hits with
  | nil =>
    intro acc h r0
    simpa [fuseHits] using h
  | cons a tl ih =>
    intro acc h r0
    rw [fuseHits]
    exact ih _ (nodup_keys_addScore h _ _) _

theorem nodup_keys_rrfAccum (k : ℕ) (lists : List (List SearchHit)) :
    ((rrfAccum k lists).map Prod.fst).Nodup := by
  suffices h : ∀ acc : List (Int × ℚ), (acc.map Prod.fst).Nodup →
      ((lists.foldl (fun acc hits => fuseHits k acc hits 0) acc).map Prod.fst).Nodup by
    simpa [rrfAccum] using h [] (by simp)
  induction lists with
  | nil =>
    intro acc h
    simpa using h
  | cons a tl ih =>
    intro acc h
    exact ih _ (nodup_keys_fuseHits k a acc h 0)

theorem scoreOf_foldl_fuse (k : ℕ) {i : Int} :
    ∀ lists : List (List SearchHit),
      (∀ hits ∈ lists, (hits.map SearchHit.id).Nodup) →
      ∀ acc : List (Int × ℚ),
        (scoreOf (lists.foldl (fun acc hits => fuseHits k acc hits 0) acc) i).getD 0
          = (scoreOf acc i).getD 0 + specFusedScore k lists i := by
  intro lists
  induction lists with
  | nil =>
    intro _ acc
    simp [specFusedScore]
  | cons a tl ih =>
    intro hnd acc
    simp only [List.foldl_cons]
    rw [ih (fun l hl => hnd l (List.mem_cons_of_mem _ hl)) _]
    rw [scoreOf_fuseHits k (hnd a (List.mem_cons_self _ _)) acc 0]
    simp only [specFusedScore, List.map_cons, List.sum_cons, specRankTerm]
    cases hr : rankOf i a with
    | none => simp [hr]
    | some r => simp [hr, add_assoc]

theorem insertDesc_perm (p : Int × ℚ) (l : List (Int × ℚ)) :
    (insertDesc p l).Perm (p :: l) := by
  induction l with
  | nil => simp [insertDesc]
  | cons q rest ih =>
    by_cases h : q.2 ≤ p.2
    · simp [insertDesc, h]
    · simp only [insertDesc, if_neg h]
      exact (ih.cons q).trans (List.Perm.swap p q rest)

theorem sortDesc_perm (l : List (Int × ℚ)) : (sortDesc l).Perm l := by
  induction l with
  | nil => simp [sortDesc]
  | cons p rest ih => exact (insertDesc_perm p (sortDesc rest)).trans (ih.cons p)

theorem sorted_insertDesc {l : List (Int × ℚ)}
    (hs : l.Pairwise (fun a b => b.2 ≤ a.2)) (p : Int × ℚ) :
    (insertDesc p l).Pairwise (fun a b => b.2 ≤ a.2) := by
  induction l with
  | nil => simp [insertDesc]
  | cons q rest ih =>
    rcases List.pairwise_cons.mp hs with ⟨hq, hrest⟩
    by_cases h : q.2 ≤ p.2
    · simp only [insertDesc, if_pos h]
      refine List.Pairwise.cons ?_ hs
      intro x hx
      rcases List.mem_cons.mp hx with rfl | hx2
      · exact h
      · exact le_trans (hq x hx2) h
    · simp only [insertDesc, if_neg h]
      refine List.Pairwise.cons ?_ (ih hrest)
      intro x hx
      rcases List.mem_cons.mp ((insertDesc_perm p rest).mem_iff.mp hx) with rfl | hx2
      · exact le_of_lt (lt_of_not_le h)
      · exact hq x hx2

theorem sorted_sortDesc (l : List (Int × ℚ)) :
    (sortDesc l).Pairwise (fun a b => b.2 ≤ a.2) := by
  induction l with
  | nil => simp [sortDesc]
  | cons p rest ih => exact sorted_insertDesc ih p

theorem filter_insertDesc_eq {p : Int × ℚ} {v : ℚ} (h : p.2 = v)
    (l : List (Int × ℚ)) :
    (insertDesc p l).filter (fun x => decide (x.2 = v))
      = p :: l.filter (fun x => decide (x.2 = v)) := by
  subst h
  induction l with
  | nil => simp [insertDesc]
  | cons q rest ih =>
    by_cases hle : q.2 ≤ p.2
    · simp [insertDesc, hle]
    · have hq : ¬(q.2 = p.2) := fun he => hle (le_of_eq he)
      simp [insertDesc, hle, hq, ih]

theorem filter_insertDesc_ne {p : Int × ℚ} {v : ℚ} (h : ¬(p.2 = v))
    (l : List (Int × ℚ)) :
    (insertDesc p l).filter (fun x => decide (x.2 = v))
      = l.filter (fun x => decide (x.2 = v)) := by
  induction l with
  | nil => simp [insertDesc, h]
  | cons q rest ih =>
    by_cases hle : q.2 ≤ p.2
    · simp [insertDesc, hle, h]
    · simp [insertDesc, hle, ih, List.filter_cons]

theorem filter_sortDesc (l : List (Int × ℚ)) (v : ℚ) :
    (sortDesc l).filter (fun x => decide (x.2 = v))
      = l.filter (fun x => decide (x.2 = v)) := by
  induction l with
  | nil => simp [sortDesc]
  | cons p rest ih =>
    by_cases h : p.2 = v
    · rw [sortDesc, filter_insertDesc_eq h, ih]
      simp [List.filter_cons, h]
    · rw [sortDesc, filter_insertDesc_ne h, ih]
      simp [List.filter_cons, h]

theorem fuseHits_congr_ids (k : ℕ) :
    ∀ {h₁ h₂ : List SearchHit}, h₁.map SearchHit.id = h₂.map SearchHit.id →
    ∀ (acc : List (Int × ℚ)) (r0 : ℕ), fuseHits k acc h₁ r0 = fuseHits k acc h₂ r0 := by
  intro h₁
  induction h₁ with
  | nil =>
    intro h₂ he acc r0
    cases h₂ with
    | nil => rfl
    | cons b tl₂ => simp at he
  | cons a tl ih =>
    intro h₂ he acc r0
    cases h₂ with
    | nil => simp at he
    | cons b tl₂ =>
      simp only [List.map_cons, List.cons.injEq] at he
      rw [fuseHits, fuseHits, he.1, ih he.2]

theorem rrfAccum_congr_ids (k : ℕ) {l₁ l₂ : List (List SearchHit)}
    (he : l₁.map (fun hits => hits.map SearchHit.id)
        = l₂.map (fun hits => hits.map SearchHit.id)) :
    rrfAccum k l₁ = rrfAccum k l₂ := by
  suffices h : ∀ (l₁ l₂ : List (List SearchHit)),
      l₁.map (fun hits => hits.map SearchHit.id)
        = l₂.map (fun hits => hits.map SearchHit.id) →
      ∀ acc : List (Int × ℚ),
        l₁.foldl (fun acc hits => fuseHits k acc hits 0) acc
          = l₂.foldl (fun acc hits => fuseHits k acc hits 0) acc by
    simpa [rrfAccum] using h l₁ l₂ he []
  intro m₁
  induction m₁ with
  | nil =>
    intro m₂ hm acc
    cases m₂ with
    | nil => rfl
    | cons b tl₂ => simp at hm
  | cons a tl ih =>
    intro m₂ hm acc
    cases m₂ with
    | nil => simp at hm
    | cons b tl₂ =>
      simp only [List.map_cons, List.cons.injEq] at hm
      simp only [List.foldl_cons]
      rw [fuseHits_congr_ids k hm.1, ih tl₂ hm.2]

theorem map_id_filterMap_store {store : Int → Option Record}
    (hstore : ∀ i r, store i = some r → r.id = i) :
    ∀ ids : List Int, ((ids.filterMap store).map Record.id)
      = ids.filter (fun i => (store i).isSome) := by
  intro ids
  induction ids with
  | nil => rfl
  | cons i tl ih =>
    cases hs : store i with
    | none => simp [List.filterMap_cons, List.filter_cons, hs, ih]
    | some r => simp [List.filterMap_cons, List.filter_cons, hs, ih, hstore i r hs]

theorem isPrefixOf_append_self (l₁ l₂ : List Char) : l₁.isPrefixOf (l₁ ++ l₂) = true := by
  induction l₁ with
  | nil => simp [List.isPrefixOf]
  | cons a tl ih => simp [List.isPrefixOf, ih]

theorem dropWhile_isWS_cons_neg {c : Char} (h : isWS c = false) (l : List Char) :
    (c :: l).dropWhile isWS = c :: l := by
  simp [List.dropWhile_cons, h]

theorem trimChars_wrapJsonFence (p : List Char) :
    trimChars (wrapJsonFence p) = wrapJsonFence p := by
  have h1 : (wrapJsonFence p).dropWhile isWS = wrapJsonFence p := by
    rw [show wrapJsonFence p
        = '`' :: ((("``json\n".data) ++ p) ++ ("\n```".data)) from rfl]
    exact dropWhile_isWS_cons_neg (by decide) _
  have h2 : (wrapJsonFence p).reverse.dropWhile isWS = (wrapJsonFence p).reverse := by
    rw [show wrapJsonFence p
        = (("```json\n".data) ++ p) ++ ("\n```".data) from by
      simp [wrapJsonFence, List.append_assoc]]
    rw [List.reverse_append]
    rw [show (("\n```".data) : List Char).reverse = '`' :: ('`' :: ('`' :: ['\n'])) from rfl]
    rw [List.cons_append]
    exact dropWhile_isWS_cons_neg (by decide) _
  rw [trimChars, h1, h2, List.reverse_reverse]

theorem trimChars_newline_cons (p : List Char) :
    trimChars ('\n' :: p) = trimChars p := by
  rw [trimChars, trimChars, List.dropWhile_cons]
  simp [isWS]

theorem stripFences_wrapJsonFence (p : List Char) :
    stripFences (wrapJsonFence p) = trimChars p := by
  have hpre : fenceOpen.isPrefixOf (trimChars (wrapJsonFence p)) = true := by
    rw [trimChars_wrapJsonFence]
    rw [show wrapJsonFence p
        = fenceOpen ++ ('\n' :: (p ++ ("\n```".data))) from rfl]
    exact isPrefixOf_append_self _ _
  rw [stripFences]
  simp only [hpre, if_true]
  rw [trimChars_wrapJsonFence]
  rw [show wrapJsonFence p
      = fenceOpen ++ ('\n' :: (p ++ ("\n```".data))) from rfl]
  rw [show (7 : ℕ) = fenceOpen.length from rfl, List.drop_left]
  have hdr : dropRightN ('\n' :: (p ++ ("\n```".data))) 4 = '\n' :: p := by
    rw [show ('\n' :: (p ++ ("\n```".data))) = ('\n' :: p) ++ ("\n```".data) from by simp]
    rw [dropRightN, List.length_append]
    rw [show (("\n```".data) : List Char).length = 4 from rfl]
    rw [Nat.add_sub_cancel]
    exact List.take_left _ _
  rw [hdr, trimChars_newline_cons]

/-- C1: for every family of per-source hit lists (each listing distinct
ids, as a ranked backend result does), the fused score that
`_reciprocal_rank_fusion` assigns to an id equals the Reciprocal Rank
Fusion sum: one term `1/(60 + r + 1)` for each source list containing
the id at 0-based rank `r`, accumulated additively across sources. An
id present in only one list receives exactly that single term, the
other lists contributing `0` to the sum. -/
theorem rrf_fused_score_eq_spec_sum (lists : List (List SearchHit))
    (hnd : ∀ hits ∈ lists, (hits.map SearchHit.id).Nodup)
    (i : Int) (s : ℚ) (hm : (i, s) ∈ rrf 60 lists) :
    s = specFusedScore 60 lists i := by
  simp only [rrf] at hm
  have hmem : (i, s) ∈ rrfAccum 60 lists := (sortDesc_perm _).mem_iff.mp hm
  have h1 : scoreOf (rrfAccum 60 lists) i = some s :=
    scoreOf_eq_of_mem (nodup_keys_rrfAccum 60 lists) hmem
  have h2 := scoreOf_foldl_fuse 60 (i := i) lists hnd []
  simp only [rrfAccum] at h1
  rw [h1] at h2
  simpa [scoreOf] using h2

/-- Witness for C1: in `[[{id 1, rank 0}, {id 2, rank 1}], [{id 2, rank 0}]]`
id 2 is ranked 1 in the first list and 0 in the second, so its fused
score is `1/62 + 1/61`. -/
theorem rrf_fused_score_eq_spec_sum_witness :
    ((1 : ℚ)/62 + 1/61) = specFusedScore 60 [[⟨1, 0⟩, ⟨2, 0⟩], [⟨2, 0⟩]] 2 :=
  rrf_fused_score_eq_spec_sum [[⟨1, 0⟩, ⟨2, 0⟩], [⟨2, 0⟩]] (by decide) 2
    ((1 : ℚ)/62 + 1/61)
    (by norm_num [rrf, rrfAccum, fuseHits, addScore, sortDesc, insertDesc, rrfTerm])

/-- Counterexample for C2: on input `[[{id 5, rank 0}], [{id 3, rank 0}]]`
both ids get fused score `1/61`, and the output keeps insertion order
`[5, 3]` — not the ascending-id tie-break `[3, 5]` the claim states, so
the output violates the claimed (score desc, id asc) ordering. -/
theorem rrf_no_id_tiebreak_counterexample :
    ¬ specFusedOrder (rrf 60 [[⟨5, 0⟩], [⟨3, 0⟩]]) := by
  have h : rrf 60 [[⟨5, 0⟩], [⟨3, 0⟩]] = [(5, 1/61), (3, 1/61)] := by
    norm_num [rrf, rrfAccum, fuseHits, addScore, sortDesc, insertDesc, rrfTerm]
  rw [h]
  intro hord
  rcases List.pairwise_cons.mp hord with ⟨hrel, -⟩
  rcases hrel (3, 1/61) (List.mem_cons_self _ _) with hlt | ⟨-, hid⟩
  · exact absurd hlt (lt_irrefl _)
  · omega

/-- C2 (amended): the fusion output is sorted by fused score descending,
is a permutation of the accumulated per-id scores, and breaks score
ties by first-insertion order (for every score value, the tied entries
appear exactly in accumulator order), which together with `rrf` being a
pure function makes the output fully deterministic; ties are *not*
broken by ascending id. -/
theorem rrf_sorted_desc_and_stable (lists : List (List SearchHit)) :
    (rrf 60 lists).Pairwise (fun a b => b.2 ≤ a.2)
    ∧ (rrf 60 lists).Perm (rrfAccum 60 lists)
    ∧ ∀ v : ℚ, (rrf 60 lists).filter (fun x => decide (x.2 = v))
        = (rrfAccum 60 lists).filter (fun x => decide (x.2 = v)) :=
  ⟨sorted_sortDesc _, sortDesc_perm _, fun v => filter_sortDesc _ v⟩

/-- C9: fusion is insensitive to raw scores — two inputs whose source
lists carry the same ids in the same order produce identical fusion
output (same id sequence and same fused scores), whatever the raw
scores are. -/
theorem rrf_depends_only_on_ranks (kRRF : ℕ) (l₁ l₂ : List (List SearchHit))
    (he : l₁.map (fun hits => hits.map SearchHit.id)
        = l₂.map (fun hits => hits.map SearchHit.id)) :
    rrf kRRF l₁ = rrf kRRF l₂ := by
  rw [rrf, rrf, rrfAccum_congr_ids kRRF he]

/-- Witness for C9: changing a raw score from 3 to 7 leaves the fusion
output unchanged. -/
theorem rrf_depends_only_on_ranks_witness :
    rrf 60 [[⟨1, 3⟩]] = rrf 60 [[⟨1, 7⟩]] :=
  rrf_depends_only_on_ranks 60 [[⟨1, 3⟩]] [[⟨1, 7⟩]] rfl

/-- C10: for every store consistent with its keys (a record looked up
under id `i` carries id `i`, as a primary-key table does), every query
outcome and every `k`, the records returned by `retrieve` have pairwise
distinct ids: fusion emits each id once, truncation and hydration
preserve that. -/
theorem retrieve_ids_nodup (store : Int → Option Record)
    (kwRes vecRes : Except String (List SearchHit)) (k : ℕ)
    (hstore : ∀ i r, store i = some r → r.id = i) :
    ((retrieve store kwRes vecRes k).map Record.id).Nodup := by
  simp only [retrieve]
  by_cases hf : rrf 60 [searchResult kwRes, searchResult vecRes] = []
  · simp [hf]
  · rw [if_neg hf, map_id_filterMap_store hstore]
    apply List.Nodup.filter
    have hnd : ((rrf 60 [searchResult kwRes, searchResult vecRes]).map Prod.fst).Nodup :=
      ((sortDesc_perm _).map Prod.fst).nodup_iff.mpr (nodup_keys_rrfAccum 60 _)
    exact List.Nodup.sublist ((List.take_sublist _ _).map Prod.fst) hnd

/-- Witness for C10: the empty store trivially satisfies the store
consistency hypothesis; `retrieve` on two one-hit sources returns
records with distinct ids. -/
theorem retrieve_ids_nodup_witness :
    ((retrieve storeSeven (.ok [⟨7, 0⟩]) (.ok [⟨3, 0⟩]) 5).map Record.id).Nodup :=
  retrieve_ids_nodup storeSeven (.ok [⟨7, 0⟩]) (.ok [⟨3, 0⟩]) 5
    (by
      intro i r h
      rw [storeSeven] at h
      by_cases hi : i = 7
      · rw [if_pos hi] at h
        cases h
        rw [hi]
        rfl
      · rw [if_neg hi] at h
        cases h)

/-- C3: a backend failure in one source is absorbed into an empty hit
list for that source, so `retrieve` behaves exactly as if that source
had returned no hits and still returns the results derived from the
other source — the single-source fault never propagates; in particular
with the keyword backend throwing and the vector backend returning the
single hit id 7 at rank 0, `retrieve` returns exactly the stored
record 7. -/
theorem retrieve_single_source_failure (store : Int → Option Record)
    (e e' : String) (kwRes vecRes : Except String (List SearchHit)) (k : ℕ)
    (r7 : Record) (s : ℚ) :
    retrieve store (.error e) vecRes k = retrieve store (.ok []) vecRes k
    ∧ retrieve store kwRes (.error e') k = retrieve store kwRes (.ok []) k
    ∧ (store 7 = some r7 → 1 ≤ k →
        retrieve store (.error e) (.ok [⟨7, s⟩]) k = [r7]) := by
  refine ⟨rfl, rfl, ?_⟩
  intro h7 hk
  obtain ⟨m, rfl⟩ : ∃ m, k = m + 1 := ⟨k - 1, by omega⟩
  simp only [retrieve, searchResult]
  have hfuse : rrf 60 [[], [⟨7, s⟩]] = [(7, rrfTerm 60 0)] := by
    simp [rrf, rrfAccum, fuseHits, addScore, sortDesc, insertDesc]
  rw [hfuse]
  simp [List.filterMap_cons, h7]

/-- Witness for C3: the spec's scenario, instantiated on a store
holding record 7. -/
theorem retrieve_single_source_failure_witness :
    retrieve storeSeven (.error ("connection refused")) (.ok [⟨7, 0⟩]) 5 = [recSeven] :=
  (retrieve_single_source_failure storeSeven ("connection refused") ("x")
      (.ok []) (.ok []) 5 recSeven 0).2.2 rfl (by omega)

/-- C4: `retrieve` returns at most `k` records; its id sequence is a
sublist of the top-`k` fused id ranking (fused order preserved, ids
with no stored record silently dropped); and when both sources return
no hits the result is the empty list, not an error. -/
theorem retrieve_bounded_ordered_total (store : Int → Option Record)
    (kwRes vecRes : Except String (List SearchHit)) (k : ℕ)
    (hstore : ∀ i r, store i = some r → r.id = i) :
    (retrieve store kwRes vecRes k).length ≤ k
    ∧ ((retrieve store kwRes vecRes k).map Record.id).Sublist
        (((rrf 60 [searchResult kwRes, searchResult vecRes]).take k).map Prod.fst)
    ∧ (searchResult kwRes = [] → searchResult vecRes = [] →
        retrieve store kwRes vecRes k = []) := by
  refine ⟨?_, ?_, ?_⟩
  · simp only [retrieve]
    by_cases hf : rrf 60 [searchResult kwRes, searchResult vecRes] = []
    · simp [hf]
    · rw [if_neg hf]
      refine le_trans (List.length_filterMap_le _ _) ?_
      rw [List.length_map]
      rw [List.length_take]
      exact min_le_left _ _
  · simp only [retrieve]
    by_cases hf : rrf 60 [searchResult kwRes, searchResult vecRes] = []
    · simp [hf]
    · rw [if_neg hf, map_id_filterMap_store hstore]
      exact List.filter_sublist _
  · intro h1 h2
    simp only [retrieve]
    rw [h1, h2]
    simp [rrf, rrfAccum, fuseHits, sortDesc]

/-- Witness for C4: the empty store satisfies the consistency
hypothesis vacuously; with both sources empty the result is empty and
within bound. -/
theorem retrieve_bounded_ordered_total_witness :
    (retrieve storeEmpty (.ok []) (.ok []) 3).length ≤ 3
    ∧ retrieve storeEmpty (.ok []) (.ok []) 3 = [] :=
  ⟨(retrieve_bounded_ordered_total storeEmpty (.ok []) (.ok []) 3
      (fun _ _ h => Option.noConfusion h)).1,
   (retrieve_bounded_ordered_total storeEmpty (.ok []) (.ok []) 3
      (fun _ _ h => Option.noConfusion h)).2.2 rfl rfl⟩

/-- Counterexample for C5: the underscore is neither alphanumeric nor
whitespace, so the claimed sanitization would replace it with
whitespace, but the regex `[^\w\s]` in `_sanitize_fts_query` counts it
as a word character and keeps it: on the query "_" the code returns
"_" where the claim requires " ". -/
theorem sanitize_underscore_counterexample :
    sanitizeFtsQuery ("_".data) = "_".data
    ∧ specSanitize ("_".data) = " ".data
    ∧ sanitizeFtsQuery ("_".data) ≠ specSanitize ("_".data) :=
  ⟨by decide, by decide, by decide⟩

/-- C5 (amended): sanitization replaces every character that is not a
word character (alphanumeric *or underscore*) and not whitespace with a
space, so every character of the sanitized query is a word character or
whitespace — no FTS5 reserved punctuation survives, and a
punctuation-only query sanitizes to pure whitespace, a valid (possibly
empty) keyword search rather than a backend match error (which
`_search_sqlite` would absorb in any case). -/
theorem sanitize_output_word_or_space (q : List Char) (c : Char)
    (hc : c ∈ sanitizeFtsQuery q) :
    isWordChar c = true ∨ c.isWhitespace = true := by
  rcases List.mem_map.mp hc with ⟨x, -, rfl⟩
  by_cases h : (isWordChar x || x.isWhitespace) = true
  · simp only [if_pos h]
    exact Bool.or_eq_true_iff.mp h
  · simp only [if_neg h]
    right
    decide

/-- Witness for C5 (amended): the space produced by sanitizing the
punctuation in the query "a;b" is whitespace. -/
theorem sanitize_output_word_or_space_witness :
    isWordChar ' ' = true ∨ (' ').isWhitespace = true :=
  sanitize_output_word_or_space ("a;b".data) ' ' (by decide)

/-- C6: the refinement loop makes at most `budget` tool calls, and if
the reasoning engine never emits a terminal answer, the loop terminates
with exactly `Failure("iteration limit exceeded")` — a loop-level hard
stop the engine cannot override. -/
theorem refinement_loop_budget_hard_stop {Q O P : Type}
    (engine : List (Q × O) → AgentTurn Q P) (tool : Q → O)
    (budget : ℕ) (hist : List (Q × O)) :
    (runRefinementLoop engine tool budget hist).2 ≤ budget
    ∧ ((∀ (h : List (Q × O)) (p : P), engine h ≠ .finalAnswer p) →
        (runRefinementLoop engine tool budget hist).1
          = .failure ("iteration limit exceeded")) := by
  induction budget generalizing hist with
  | zero => exact ⟨le_refl _, fun _ => rfl⟩
  | succ n ih =>
    cases hE : engine hist with
    | finalAnswer p =>
      refine ⟨?_, ?_⟩
      · simp [runRefinementLoop, hE]
      · intro hnever
        exact absurd hE (hnever hist p)
    | toolCall q =>
      refine ⟨?_, ?_⟩
      · simp only [runRefinementLoop, hE]
        exact Nat.succ_le_succ (ih (hist ++ [(q, tool q)])).1
      · intro hnever
        simp only [runRefinementLoop, hE]
        exact (ih (hist ++ [(q, tool q)])).2 hnever

/-- Witness for C6: an engine that always requests another tool call
exhausts the default budget of 5 and the loop fails with exactly
"iteration limit exceeded" after at most 5 tool calls. -/
theorem refinement_loop_budget_hard_stop_witness :
    (runRefinementLoop (fun _ : List (ℕ × ℕ) => AgentTurn.toolCall (P := ℕ) 0)
        (fun q => q) defaultMaxIterations []).2 ≤ defaultMaxIterations
    ∧ (runRefinementLoop (fun _ : List (ℕ × ℕ) => AgentTurn.toolCall (P := ℕ) 0)
        (fun q => q) defaultMaxIterations []).1
      = .failure ("iteration limit exceeded") :=
  ⟨(refinement_loop_budget_hard_stop _ _ defaultMaxIterations []).1,
   (refinement_loop_budget_hard_stop _ _ defaultMaxIterations []).2
     (fun _ _ hc => AgentTurn.noConfusion hc)⟩

/-- C7: for every terminal payload `p` (that does not itself begin with
a fence marker once stripped) and every parser insensitive to
surrounding whitespace — as `json.loads` is — the handler's
fence-stripping is semantics-preserving: parsing `p` wrapped in
markdown code-fence markers yields exactly the same parse result as
parsing the bare payload. -/
theorem fence_wrapped_payload_parses_identically
    (parse : List Char → Option JsonObj)
    (hparse : ∀ s, parse (trimChars s) = parse s)
    (p : List Char) (hp : fenceOpen.isPrefixOf (trimChars p) = false) :
    parse (stripFences (wrapJsonFence p)) = parse (stripFences p) := by
  rw [stripFences_wrapJsonFence, hparse]
  rw [stripFences]
  simp only [hp]
  rfl

/-- Witness for C7: the constant parser is trivially whitespace
insensitive, and the sample success payload does not begin with a fence
marker. -/
theorem fence_wrapped_payload_parses_identically_witness :
    (fun _ : List Char => (none : Option JsonObj)) (stripFences (wrapJsonFence ("\x7b\x7d".data)))
      = (fun _ : List Char => (none : Option JsonObj)) (stripFences ("\x7b\x7d".data)) :=
  fence_wrapped_payload_parses_identically (fun _ => none) (fun _ => rfl)
    ("\x7b\x7d".data) (by decide)

/-- C8: at the request boundary, once an output string is in hand, an
explicit terminal failure payload (one containing the `"error":` key
and parsing to an object) maps to the 404 not-found outcome carrying
the payload's error message; a syntactically malformed payload maps to
the 500 internal-error outcome, whatever branch it reaches; a
well-formed payload missing a required success field also maps to the
500 outcome; and a success outcome arises only from a payload that
parsed and validated to a full `ParagraphLocation` — malformed or
incomplete payloads are never coerced into success or not-found. -/
theorem terminal_payload_routing (parse : List Char → Option JsonObj)
    (s : List Char) (hs : s ≠ []) :
    (hasSubstr errorProbe (stripFences s) = true →
      ∀ o : JsonObj, parse (stripFences s) = some o →
        handleAgentOutput parse s
          = .notFound ((lookupJ ("error".data) o).getD (.jstr ("Justification not found".data))))
    ∧ (parse (stripFences s) = none → handleAgentOutput parse s = .internalError)
    ∧ (hasSubstr errorProbe (stripFences s) = false →
        ∀ o : JsonObj, parse (stripFences s) = some o → validateLocation o = none →
          handleAgentOutput parse s = .internalError)
    ∧ (∀ loc : ParagraphLocation, handleAgentOutput parse s = .ok loc →
        ∃ o : JsonObj, parse (stripFences s) = some o ∧ validateLocation o = some loc) := by
  refine ⟨?_, ?_, ?_, ?_⟩
  · intro hprobe o ho
    simp [handleAgentOutput, hs, hprobe, ho]
  · intro hnone
    by_cases hprobe : hasSubstr errorProbe (stripFences s) = true
    · simp [handleAgentOutput, hs, hprobe, hnone]
    · simp [handleAgentOutput, hs, hprobe, hnone]
  · intro hprobe o ho hval
    simp [handleAgentOutput, hs, hprobe, ho, hval]
  · intro loc hloc
    by_cases hprobe : hasSubstr errorProbe (stripFences s) = true
    · cases hpar : parse (stripFences s) with
      | none => simp [handleAgentOutput, hs, hprobe, hpar] at hloc
      | some o => simp [handleAgentOutput, hs, hprobe, hpar] at hloc
    · cases hpar : parse (stripFences s) with
      | none => simp [handleAgentOutput, hs, hprobe, hpar] at hloc
      | some o =>
        cases hval : validateLocation o with
        | none => simp [handleAgentOutput, hs, hprobe, hpar, hval] at hloc
        | some loc2 =>
          refine ⟨o, rfl, ?_⟩
          simp [handleAgentOutput, hs, hprobe, hpar, hval] at hloc
          rw [hval, hloc]

/-- Witness for C8: the sample parser routes the explicit error payload
to the 404 outcome with its message, the malformed payload to the 500
outcome, and the field-missing payload to the 500 outcome. -/
theorem terminal_payload_routing_witness :
    handleAgentOutput sampleParse sampleErrPayload = .notFound (.jstr ("nope".data))
    ∧ handleAgentOutput sampleParse sampleBadPayload = .internalError
    ∧ handleAgentOutput sampleParse sampleMissPayload = .internalError :=
  ⟨((terminal_payload_routing sampleParse sampleErrPayload (by decide)).1
      (by decide) [("error".data, .jstr ("nope".data))] (by decide)).trans (by decide),
   (terminal_payload_routing sampleParse sampleBadPayload (by decide)).2.1 (by decide),
   (terminal_payload_routing sampleParse sampleMissPayload (by decide)).2.2.1
     (by decide) [("doc_id".data, .jint 3)] (by decide) (by decide)⟩
